import Mathlib

/-!
Media Organizer MVP: verification of the scan / dedup-insert core.

Shallow embedding of `main.go` from `gitmvp-com/media-organizer-mvp`:
the extension classifier (`supportedExtensions`), the SQLite-backed
catalog store (table `media` with a UNIQUE constraint on `path`), and the
`filepath.Walk`-based scan handler (`scanDirectory`), together with the
query handlers `getMediaItems` and `getStats`.

Modelling choices:
* The SQLite table is a `DBState`: the list of rows in insertion order,
  the next AUTOINCREMENT id, and a logical clock supplying
  `created_at DEFAULT CURRENT_TIMESTAMP` values (monotonically increasing).
* The filesystem is an `FSEntry` tree.  `filepath.Walk` reports a per-node
  error when `lstat` of a node fails (`badFile`: e.g. a file deleted
  between directory enumeration and the stat call, or a missing root) or
  when reading a directory fails (`badDir`).  The walk callback of
  `scanDirectory` is modelled verbatim: returning an error from the
  callback aborts the walk.
* `ORDER BY created_at DESC` is an insertion sort by descending
  `createdAt`.
* Row-returning queries that can fail at the driver level are modelled
  with `Except`; `getStats` takes the three query outcomes as arguments,
  mirroring the Go handler that inspects each `err` separately.
-/

/-- One row of the `media` table (Go struct `MediaItem`). -/
structure MediaItem where
  id : Nat
  path : String
  filename : String
  size : Int
  type : String
  createdAt : Nat
deriving Repr, DecidableEq

/-- The `media` table plus the SQLite bookkeeping the model needs:
`items` in insertion (rowid) order, the next AUTOINCREMENT `id`, and a
logical clock for `created_at DEFAULT CURRENT_TIMESTAMP`. -/
structure DBState where
  items : List MediaItem
  nextId : Nat
  clock : Nat
deriving Repr, DecidableEq

/-- The freshly initialised database of `initDB`: empty `media` table,
AUTOINCREMENT ids starting at 1. -/
def initialDB : DBState := { items := [], nextId := 1, clock := 0 }

/-- The `supportedExtensions` map of `main.go`, as an association list. -/
def supportedExtensions : List (String × String) :=
  [(".mp4", "video"), (".avi", "video"), (".mkv", "video"), (".mov", "video"),
   (".wmv", "video"), (".flv", "video"), (".webm", "video"),
   (".jpg", "image"), (".jpeg", "image"), (".png", "image"),
   (".gif", "image"), (".webp", "image")]

/-- Association-list lookup (Go map indexing `supportedExtensions[ext]`). -/
def lookupTable : List (String × String) → String → Option String
  | [], _ => none
  | (k, v) :: rest, e => if e = k then some v else lookupTable rest e

/-- Go map indexing `supportedExtensions[ext]`. -/
def lookupExt (e : String) : Option String :=
  lookupTable supportedExtensions e

/-- Go's `filepath.Ext`: the suffix of the final path element starting at
its last dot, or `""` when the final element has no dot.  The argument is
the reversed character list of the path; the accumulator collects the
characters already passed (in forward order). -/
def extOfRev : List Char → List Char → String
  | [], _ => ""
  | c :: rest, acc =>
    if c = '/' then ""
    else if c = '.' then String.mk (c :: acc)
    else extOfRev rest (c :: acc)

/-- Go's `filepath.Ext` on a path string. -/
def filePathExt (p : String) : String :=
  extOfRev p.data.reverse []

/-- Go's `strings.ToLower`: lowercase every character of the string. -/
def strToLower (s : String) : String :=
  String.mk (s.data.map Char.toLower)

/-- The classifier applied by the walk callback (lines 162–163 of
`main.go`): `strings.ToLower(filepath.Ext(path))` followed by the map
lookup. -/
def classify (path : String) : Option String :=
  lookupExt (strToLower (filePathExt path))

/-- The existence check of the walk callback (lines 169–173):
`SELECT COUNT(*) FROM media WHERE path = ?` compared with 0. -/
def dbExists (db : DBState) (path : String) : Bool :=
  db.items.any (fun it => it.path = path)

/-- Store-level errors.  `constraintViolation` is SQLite rejecting an
`INSERT` because of the `UNIQUE` constraint on `path` in the schema of
`initDB`. -/
inductive DBError where
  | constraintViolation
deriving Repr, DecidableEq

/-- The row the database completes from an `INSERT INTO media
(path, filename, size, type)`: the next AUTOINCREMENT id and the
`created_at` default. -/
def newRow (db : DBState) (path filename : String) (size : Int)
    (mediaType : String) : MediaItem :=
  { id := db.nextId, path := path, filename := filename, size := size,
    type := mediaType, createdAt := db.clock }

/-- The statement `INSERT INTO media (path, filename, size, type)` run
against the schema of `initDB`: fails with a constraint violation when a
row with the same `path` already exists (UNIQUE on `path`), otherwise
appends a row with the next AUTOINCREMENT id and `created_at` set by the
database. -/
def dbInsert (db : DBState) (path filename : String) (size : Int)
    (mediaType : String) : Except DBError DBState :=
  if dbExists db path then
    .error .constraintViolation
  else
    .ok { items := db.items ++ [newRow db path filename size mediaType],
          nextId := db.nextId + 1, clock := db.clock + 1 }

/-- The body of the walk callback for a regular (non-directory) file with
a successful stat: classify by extension, skip unclassified files, skip
already-catalogued paths, otherwise insert; `count` is incremented only
when the insert succeeds (lines 162–192 of `main.go`). -/
def processFile (db : DBState) (count : Nat) (path name : String)
    (size : Int) : DBState × Nat :=
  match classify path with
  | none => (db, count)
  | some mediaType =>
    if dbExists db path then (db, count)
    else
      match dbInsert db path name size mediaType with
      | .error _ => (db, count)
      | .ok db' => (db', count + 1)

/-- A filesystem node as seen by `filepath.Walk`.  `badFile` is a node
whose `lstat` fails when the walk reaches it (a vanished or unreadable
file, or a missing root); `badDir` is a directory whose listing fails. -/
inductive FSEntry where
  | file (name : String) (size : Int)
  | badFile (name : String)
  | dir (name : String) (entries : List FSEntry)
  | badDir (name : String)

/-- Base name of a node. -/
def FSEntry.name : FSEntry → String
  | .file n _ => n
  | .badFile n => n
  | .dir n _ => n
  | .badDir n => n

instance {ε α : Type} [DecidableEq ε] [DecidableEq α] :
    DecidableEq (Except ε α) := fun x y =>
  match x, y with
  | .ok a, .ok b =>
    if h : a = b then .isTrue (by rw [h])
    else .isFalse (by intro hc; cases hc; exact h rfl)
  | .ok _, .error _ => .isFalse (by intro hc; cases hc)
  | .error _, .ok _ => .isFalse (by intro hc; cases hc)
  | .error e, .error f =>
    if h : e = f then .isTrue (by rw [h])
    else .isFalse (by intro hc; cases hc; exact h rfl)

mutual
/-- Go's `filepath.Walk` running the callback of `scanDirectory` over the
node at `path`, threading the database and the `count` accumulator.  A
non-nil `err` argument to the callback (failed `lstat`, failed directory
read) is returned by the callback, which aborts the whole walk with that
error. -/
def walkEntry (path : String) (e : FSEntry) (db : DBState) (count : Nat) :
    Except String (DBState × Nat) :=
  match e with
  | .file name size => .ok (processFile db count path name size)
  | .badFile _ => .error ("lstat " ++ path ++ ": no such file or directory")
  | .dir _ entries => walkEntries path entries db count
  | .badDir _ => .error ("open " ++ path ++ ": permission denied")

/-- The walk over the children of the directory `dirPath`, in order; an
error from any child aborts the remaining walk. -/
def walkEntries (dirPath : String) (es : List FSEntry) (db : DBState)
    (count : Nat) : Except String (DBState × Nat) :=
  match es with
  | [] => .ok (db, count)
  | e :: rest =>
    match walkEntry (dirPath ++ "/" ++ e.name) e db count with
    | .error msg => .error msg
    | .ok (db', c') => walkEntries dirPath rest db' c'
end

/-- The scan handler's core (`scanDirectory`, lines 152–199): walk the
tree rooted at `rootPath` with `count` starting at 0; the result is either
the walk error (surfaced to the caller as a 500) or the updated catalog
together with the `count` reported in the JSON response. -/
def scanDirectory (rootPath : String) (root : FSEntry) (db : DBState) :
    Except String (DBState × Nat) :=
  walkEntry rootPath root db 0

/-- Comparison used by `ORDER BY created_at DESC`: `a` comes before `b`
when `a` is at least as new as `b`. -/
def createdDesc (a b : MediaItem) : Prop := b.createdAt ≤ a.createdAt

instance : DecidableRel createdDesc := fun a b => Nat.decLe b.createdAt a.createdAt

instance : IsTotal MediaItem createdDesc :=
  ⟨fun a b => Nat.le_total b.createdAt a.createdAt⟩

instance : IsTrans MediaItem createdDesc :=
  ⟨fun _ _ _ hab hbc => Nat.le_trans hbc hab⟩

/-- The handler `getMediaItems` (lines 113–133): `mediaType` is the
`type` query parameter (`""` when absent); the rows, optionally filtered
by `type`, sorted by `created_at DESC`. -/
def getMediaItems (db : DBState) (mediaType : String) : List MediaItem :=
  if mediaType = "" then
    List.insertionSort createdDesc db.items
  else
    List.insertionSort createdDesc
      (db.items.filter (fun it => it.type = mediaType))

/-- The response shape of `getStats` (the zero-initialised Go struct
with fields `total`, `videos`, `images`). -/
structure Stats where
  total : Nat
  videos : Nat
  images : Nat
deriving Repr, DecidableEq

/-- How the `getStats` handler consumes one count-query outcome: on
success the scanned value, on a query error the zero-initialised field is
left untouched (the error is only logged). -/
def orZero : Except String Nat → Nat
  | .ok n => n
  | .error _ => 0

/-- The handler `getStats` (lines 211–235), parametrised by the outcomes
of its three `SELECT COUNT(*)` queries.  Whatever the outcomes, it
produces a `Stats` value (written as a 200 JSON response); a failed query
only contributes a zero field. -/
def getStats (qTotal qVideos qImages : Except String Nat) : Stats :=
  { total := orZero qTotal, videos := orZero qVideos, images := orZero qImages }

/-- The count of `SELECT COUNT(*) FROM media WHERE type = ?`. -/
def countOfType (db : DBState) (t : String) : Nat :=
  (db.items.filter (fun it => it.type = t)).length

/-- Result of `getStats` when all three queries succeed against `db`. -/
def getStatsOfDB (db : DBState) : Stats :=
  getStats (.ok db.items.length) (.ok (countOfType db "video"))
    (.ok (countOfType db "image"))

mutual
/-- Whether the walk over this node reports an error for some node in it
(a failed `lstat` or a failed directory read). -/
def hasBad : FSEntry → Bool
  | .file _ _ => false
  | .badFile _ => true
  | .dir _ entries => hasBadL entries
  | .badDir _ => true

/-- Whether some node of the list has a walk error in it. -/
def hasBadL : List FSEntry → Bool
  | [] => false
  | e :: rest => hasBad e || hasBadL rest
end

mutual
/-- The paths of the classifiable regular files of the tree rooted at
`path` (the files the scan would catalog). -/
def mediaPaths (path : String) (e : FSEntry) : List String :=
  match e with
  | .file _ _ => if (classify path).isSome then [path] else []
  | .dir _ entries => mediaPathsL path entries
  | .badFile _ => []
  | .badDir _ => []

/-- The classifiable file paths contributed by children of `dirPath`. -/
def mediaPathsL (dirPath : String) (es : List FSEntry) : List String :=
  match es with
  | [] => []
  | e :: rest =>
    mediaPaths (dirPath ++ "/" ++ e.name) e ++ mediaPathsL dirPath rest
end

/-- Every row of the catalog carries one of the two enumerated media
kinds. -/
def WFdb (db : DBState) : Prop :=
  ∀ it ∈ db.items, it.type = "video" ∨ it.type = "image"

/-- Catalog states reachable by the program: the freshly initialised
database, grown only by successful scans. -/
inductive Reachable : DBState → Prop where
  | init : Reachable initialDB
  | scanOk (db : DBState) (rootPath : String) (root : FSEntry)
      (db' : DBState) (c : Nat) : Reachable db →
      scanDirectory rootPath root db = .ok (db', c) → Reachable db'

/-- Whether an `Except` result is a success. -/
def exOk {ε α : Type} : Except ε α → Bool
  | .ok _ => true
  | .error _ => false

/-- The scenario tree of §8 of the specification: `a.mp4` (10 bytes),
`b.jpg` (20 bytes), `c.txt` (5 bytes) and `sub/d.png` (30 bytes) under
one root. -/
def demoTree : FSEntry :=
  .dir "root"
    [.file "a.mp4" 10, .file "b.jpg" 20, .file "c.txt" 5,
     .dir "sub" [.file "d.png" 30]]

/-- The catalog produced by scanning `demoTree` into the fresh
database. -/
def demoDB : DBState :=
  { items :=
      [{ id := 1, path := "root/a.mp4", filename := "a.mp4", size := 10,
         type := "video", createdAt := 0 },
       { id := 2, path := "root/b.jpg", filename := "b.jpg", size := 20,
         type := "image", createdAt := 1 },
       { id := 3, path := "root/sub/d.png", filename := "d.png", size := 30,
         type := "image", createdAt := 2 }],
    nextId := 4, clock := 3 }

/-- The extensions the source maps to `video`, in table order. -/
def videoExts : List String :=
  [".mp4", ".avi", ".mkv", ".mov", ".wmv", ".flv", ".webm"]

/-- The extensions the source maps to `image`, in table order. -/
def imageExts : List String :=
  [".jpg", ".jpeg", ".png", ".gif", ".webp"]

/-! Basic lemmas about the classifier and the store. -/

theorem lookupTable_mem (l : List (String × String)) (e t : String)
    (h : lookupTable l e = some t) : (e, t) ∈ l := by
  induction l with
  | nil => simp [lookupTable] at h
  | cons kv rest ih =>
    obtain ⟨k, v⟩ := kv
    rw [lookupTable] at h
    split at h
    · rename_i heq
      injection h with h
      subst heq; subst h
      exact List.mem_cons_self _ _
    · exact List.mem_cons_of_mem _ (ih h)

theorem lookupExt_kind (e t : String) (h : lookupExt e = some t) :
    t = "video" ∨ t = "image" := by
  have hm : t ∈ supportedExtensions.map Prod.snd :=
    List.mem_map_of_mem Prod.snd (lookupTable_mem _ _ _ h)
  simp [supportedExtensions] at hm
  tauto

theorem classify_kind (p t : String) (h : classify p = some t) :
    t = "video" ∨ t = "image" :=
  lookupExt_kind _ _ h

theorem dbInsert_ok_of_fresh (db : DBState) (p f : String) (s : Int)
    (t : String) (h : dbExists db p = false) :
    dbInsert db p f s t = .ok
      { items := db.items ++ [newRow db p f s t],
        nextId := db.nextId + 1, clock := db.clock + 1 } := by
  simp [dbInsert, h]

theorem dbInsert_error_of_exists (db : DBState) (p f : String) (s : Int)
    (t : String) (h : dbExists db p = true) :
    dbInsert db p f s t = .error .constraintViolation := by
  simp [dbInsert, h]

theorem dbInsert_ok_inv (db db' : DBState) (p f : String) (s : Int)
    (t : String) (h : dbInsert db p f s t = .ok db') :
    dbExists db p = false ∧ db'.items = db.items ++ [newRow db p f s t] := by
  unfold dbInsert at h
  split at h
  · cases h
  · rename_i hx
    injection h with h
    subst h
    exact ⟨by simpa using hx, rfl⟩

theorem dbExists_of_append (db db' : DBState) (tail : List MediaItem)
    (hit : db'.items = db.items ++ tail) (q : String)
    (hq : dbExists db q = true) : dbExists db' q = true := by
  unfold dbExists at *
  rw [hit, List.any_append, hq, Bool.true_or]

theorem processF_of_none (db : DBState) (c : Nat) (p nm : String)
    (s : Int) (h : classify p = none) :
    processFile db c p nm s = (db, c) := by
  simp [processFile, h]

theorem processF_of_exists (db : DBState) (c : Nat) (p nm : String)
    (s : Int) (h : dbExists db p = true) :
    processFile db c p nm s = (db, c) := by
  unfold processFile
  cases hcl : classify p with
  | none => rfl
  | some t => simp [h]

theorem processF_spec (db : DBState) (c : Nat) (p nm : String) (s : Int) :
    processFile db c p nm s = (db, c) ∨
    ∃ t, classify p = some t ∧ dbExists db p = false ∧
      processFile db c p nm s =
        ({ items := db.items ++ [newRow db p nm s t],
           nextId := db.nextId + 1, clock := db.clock + 1 }, c + 1) := by
  unfold processFile
  cases hcl : classify p with
  | none => exact .inl rfl
  | some t =>
    by_cases hx : dbExists db p
    · simp [hx]
    · right
      refine ⟨t, rfl, by simpa using hx, ?_⟩
      have hins := dbInsert_ok_of_fresh db p nm s t (by simpa using hx)
      simp [hx, hins]

theorem processF_delta (db : DBState) (c : Nat) (p nm : String) (s : Int) :
    ∃ tail, (processFile db c p nm s).1.items = db.items ++ tail ∧
      (processFile db c p nm s).2 = c + tail.length ∧
      ∀ it ∈ tail, it.type = "video" ∨ it.type = "image" := by
  rcases processF_spec db c p nm s with h | ⟨t, hcl, hx, h⟩
  · exact ⟨[], by simp [h], by simp [h], by simp⟩
  · refine ⟨[newRow db p nm s t], by simp [h], by simp [h], ?_⟩
    intro it hit
    rw [List.mem_singleton] at hit
    subst hit
    exact classify_kind p t hcl

theorem processF_covers (db : DBState) (c : Nat) (p nm : String) (s : Int)
    (h : (classify p).isSome = true) :
    dbExists (processFile db c p nm s).1 p = true := by
  unfold processFile
  cases hcl : classify p with
  | none => rw [hcl] at h; simp at h
  | some t =>
    by_cases hx : dbExists db p
    · simp [hx]
    · have hins := dbInsert_ok_of_fresh db p nm s t (by simpa using hx)
      simp only [hx, if_false, Bool.false_eq_true, if_neg, hins]
      simp [dbExists, newRow]

/-! Lemmas about the walk, by mutual induction over the tree. -/

mutual
theorem walkEntry_delta (path : String) (e : FSEntry) (db : DBState)
    (c : Nat) (db' : DBState) (c' : Nat)
    (h : walkEntry path e db c = .ok (db', c')) :
    ∃ tail, db'.items = db.items ++ tail ∧ c' = c + tail.length ∧
      ∀ it ∈ tail, it.type = "video" ∨ it.type = "image" := by
  cases e with
  | file nm s =>
    rw [walkEntry] at h
    injection h with h
    obtain ⟨tail, h1, h2, h3⟩ := processF_delta db c path nm s
    rw [h] at h1 h2
    exact ⟨tail, h1, h2, h3⟩
  | badFile nm => rw [walkEntry] at h; cases h
  | dir nm entries =>
    rw [walkEntry] at h
    exact walkEntries_delta path entries db c db' c' h
  | badDir nm => rw [walkEntry] at h; cases h

theorem walkEntries_delta (dirPath : String) (es : List FSEntry)
    (db : DBState) (c : Nat) (db' : DBState) (c' : Nat)
    (h : walkEntries dirPath es db c = .ok (db', c')) :
    ∃ tail, db'.items = db.items ++ tail ∧ c' = c + tail.length ∧
      ∀ it ∈ tail, it.type = "video" ∨ it.type = "image" := by
  cases es with
  | nil =>
    rw [walkEntries] at h
    injection h with h
    injection h with h1 h2
    subst h1; subst h2
    exact ⟨[], by simp, by simp, by simp⟩
  | cons e rest =>
    rw [walkEntries] at h
    split at h
    · cases h
    · rename_i db1 c1 heq
      obtain ⟨t1, h11, h12, h13⟩ :=
        walkEntry_delta (dirPath ++ "/" ++ e.name) e db c db1 c1 heq
      obtain ⟨t2, h21, h22, h23⟩ :=
        walkEntries_delta dirPath rest db1 c1 db' c' h
      refine ⟨t1 ++ t2, ?_, ?_, ?_⟩
      · rw [h21, h11, List.append_assoc]
      · rw [h22, h12, List.length_append]; omega
      · intro it hit
        rcases List.mem_append.1 hit with hm | hm
        · exact h13 it hm
        · exact h23 it hm
end

mutual
theorem walkEntry_exOk (path : String) (e : FSEntry) (db : DBState)
    (c : Nat) : exOk (walkEntry path e db c) = !hasBad e := by
  cases e with
  | file nm s => rw [walkEntry, hasBad]; rfl
  | badFile nm => rw [walkEntry, hasBad]; rfl
  | dir nm entries =>
    rw [walkEntry, hasBad]
    exact walkEntries_exOk path entries db c
  | badDir nm => rw [walkEntry, hasBad]; rfl

theorem walkEntries_exOk (dirPath : String) (es : List FSEntry)
    (db : DBState) (c : Nat) :
    exOk (walkEntries dirPath es db c) = !hasBadL es := by
  cases es with
  | nil => rw [walkEntries, hasBadL]; rfl
  | cons e rest =>
    rw [walkEntries, hasBadL]
    cases hw : walkEntry (dirPath ++ "/" ++ e.name) e db c with
    | error msg =>
      have hh := walkEntry_exOk (dirPath ++ "/" ++ e.name) e db c
      rw [hw] at hh
      have : hasBad e = true := by
        cases hb : hasBad e
        · rw [hb] at hh; exact absurd hh (by simp [exOk])
        · rfl
      simp [this, exOk]
    | ok r =>
      obtain ⟨db1, c1⟩ := r
      have hh := walkEntry_exOk (dirPath ++ "/" ++ e.name) e db c
      rw [hw] at hh
      have hb : hasBad e = false := by
        cases hb : hasBad e
        · rfl
        · rw [hb] at hh; exact absurd hh (by simp [exOk])
      simp only [hb, Bool.false_or]
      exact walkEntries_exOk dirPath rest db1 c1
end

mutual
theorem walkEntry_covers (path : String) (e : FSEntry) (db : DBState)
    (c : Nat) (db' : DBState) (c' : Nat)
    (h : walkEntry path e db c = .ok (db', c')) :
    ∀ q ∈ mediaPaths path e, dbExists db' q = true := by
  cases e with
  | file nm s =>
    rw [walkEntry] at h
    injection h with h
    intro q hq
    rw [mediaPaths] at hq
    split at hq
    · rename_i hsome
      rw [List.mem_singleton] at hq
      subst hq
      have := processF_covers db c q nm s hsome
      rw [h] at this
      exact this
    · simp at hq
  | badFile nm => rw [walkEntry] at h; cases h
  | dir nm entries =>
    rw [walkEntry] at h
    intro q hq
    rw [mediaPaths] at hq
    exact walkEntries_covers path entries db c db' c' h q hq
  | badDir nm => rw [walkEntry] at h; cases h

theorem walkEntries_covers (dirPath : String) (es : List FSEntry)
    (db : DBState) (c : Nat) (db' : DBState) (c' : Nat)
    (h : walkEntries dirPath es db c = .ok (db', c')) :
    ∀ q ∈ mediaPathsL dirPath es, dbExists db' q = true := by
  cases es with
  | nil => intro q hq; rw [mediaPathsL] at hq; simp at hq
  | cons e rest =>
    rw [walkEntries] at h
    split at h
    · cases h
    · rename_i db1 c1 heq
      intro q hq
      rw [mediaPathsL] at hq
      rcases List.mem_append.1 hq with hm | hm
      · have h1 := walkEntry_covers (dirPath ++ "/" ++ e.name) e db c db1 c1 heq q hm
        obtain ⟨tail, ht, -, -⟩ := walkEntries_delta dirPath rest db1 c1 db' c' h
        exact dbExists_of_append db1 db' tail ht q h1
      · exact walkEntries_covers dirPath rest db1 c1 db' c' h q hm
end

mutual
theorem walkEntry_noop (path : String) (e : FSEntry) (db : DBState)
    (c : Nat) (hb : hasBad e = false)
    (hcov : ∀ q ∈ mediaPaths path e, dbExists db q = true) :
    walkEntry path e db c = .ok (db, c) := by
  cases e with
  | file nm s =>
    rw [walkEntry]
    cases hcl : classify path with
    | none => rw [processF_of_none db c path nm s hcl]
    | some t =>
      have hx : dbExists db path = true := by
        apply hcov
        rw [mediaPaths]
        simp [hcl]
      rw [processF_of_exists db c path nm s hx]
  | badFile nm => rw [hasBad] at hb; cases hb
  | dir nm entries =>
    rw [walkEntry]
    rw [hasBad] at hb
    exact walkEntries_noop path entries db c hb
      (by intro q hq; exact hcov q (by rw [mediaPaths]; exact hq))
  | badDir nm => rw [hasBad] at hb; cases hb

theorem walkEntries_noop (dirPath : String) (es : List FSEntry)
    (db : DBState) (c : Nat) (hb : hasBadL es = false)
    (hcov : ∀ q ∈ mediaPathsL dirPath es, dbExists db q = true) :
    walkEntries dirPath es db c = .ok (db, c) := by
  cases es with
  | nil => rw [walkEntries]
  | cons e rest =>
    rw [hasBadL, Bool.or_eq_false_iff] at hb
    have h1 := walkEntry_noop (dirPath ++ "/" ++ e.name) e db c hb.1
      (by intro q hq; exact hcov q (by rw [mediaPathsL]; exact List.mem_append.2 (.inl hq)))
    rw [walkEntries, h1]
    exact walkEntries_noop dirPath rest db c hb.2
      (by intro q hq; exact hcov q (by rw [mediaPathsL]; exact List.mem_append.2 (.inr hq)))
end

/-! Well-formedness of reachable catalog states. -/

theorem walkEntry_WF (path : String) (e : FSEntry) (db : DBState)
    (c : Nat) (db' : DBState) (c' : Nat)
    (h : walkEntry path e db c = .ok (db', c')) (hwf : WFdb db) :
    WFdb db' := by
  obtain ⟨tail, ht, -, h3⟩ := walkEntry_delta path e db c db' c' h
  intro it hit
  rw [ht] at hit
  rcases List.mem_append.1 hit with hm | hm
  · exact hwf it hm
  · exact h3 it hm

theorem reachable_WF (db : DBState) (h : Reachable db) : WFdb db := by
  induction h with
  | init => intro it hit; simp [initialDB] at hit
  | scanOk db rootPath root db' c hr hscan ih =>
    exact walkEntry_WF rootPath root db 0 db' c hscan ih

theorem length_filter_kinds (l : List MediaItem)
    (h : ∀ it ∈ l, it.type = "video" ∨ it.type = "image") :
    l.length = (l.filter (fun it => it.type = "video")).length +
      (l.filter (fun it => it.type = "image")).length := by
  induction l with
  | nil => rfl
  | cons a l ih =>
    have ha := h a (List.mem_cons_self a l)
    have ih' := ih (fun it hit => h it (List.mem_cons_of_mem a hit))
    rcases ha with ha | ha <;>
      simp [List.filter_cons, ha, ih'] <;> omega

/-! Characterisation of the classification table. -/

theorem mem_table_video (e : String)
    (h : (e, "video") ∈ supportedExtensions) : e ∈ videoExts := by
  simp only [supportedExtensions, List.mem_cons, List.not_mem_nil,
    or_false] at h
  rcases h with h | h | h | h | h | h | h | h | h | h | h | h
  all_goals injection h with ha hb
  all_goals try exact absurd hb (by decide)
  all_goals subst ha
  all_goals decide

theorem mem_table_image (e : String)
    (h : (e, "image") ∈ supportedExtensions) : e ∈ imageExts := by
  simp only [supportedExtensions, List.mem_cons, List.not_mem_nil,
    or_false] at h
  rcases h with h | h | h | h | h | h | h | h | h | h | h | h
  all_goals injection h with ha hb
  all_goals try exact absurd hb (by decide)
  all_goals subst ha
  all_goals decide

theorem lookupExt_video_iff (e : String) :
    lookupExt e = some "video" ↔ e ∈ videoExts := by
  constructor
  · intro h
    exact mem_table_video e (lookupTable_mem _ _ _ h)
  · intro h
    simp only [videoExts, List.mem_cons, List.not_mem_nil, or_false] at h
    rcases h with rfl | rfl | rfl | rfl | rfl | rfl | rfl
    all_goals decide

theorem lookupExt_image_iff (e : String) :
    lookupExt e = some "image" ↔ e ∈ imageExts := by
  constructor
  · intro h
    exact mem_table_image e (lookupTable_mem _ _ _ h)
  · intro h
    simp only [imageExts, List.mem_cons, List.not_mem_nil, or_false] at h
    rcases h with rfl | rfl | rfl | rfl | rfl
    all_goals decide

/-! Claim theorems. -/

/-- C1: scanning is idempotent.  If a scan of an unchanged tree against
catalog `db` succeeds with some added count `n`, then the immediate
re-scan against the resulting catalog `db1` succeeds, adds 0 items, and
returns the very same catalog state `db1` — hence `countByKind().total`
is identical after both runs and no duplicate entries are created. -/
theorem scan_idempotent (rootPath : String) (root : FSEntry)
    (db db1 : DBState) (n : Nat)
    (h : scanDirectory rootPath root db = .ok (db1, n)) :
    scanDirectory rootPath root db1 = .ok (db1, 0) ∧
    ∀ db2 m, scanDirectory rootPath root db1 = .ok (db2, m) →
      m = 0 ∧ getStatsOfDB db2 = getStatsOfDB db1 := by
  unfold scanDirectory at h
  have hb : hasBad root = false := by
    have hok := walkEntry_exOk rootPath root db 0
    rw [h] at hok
    cases hbb : hasBad root
    · rfl
    · rw [hbb] at hok; exact absurd hok (by simp [exOk])
  have h2 : scanDirectory rootPath root db1 = .ok (db1, 0) :=
    walkEntry_noop rootPath root db1 0 hb
      (walkEntry_covers rootPath root db 0 db1 n h)
  refine ⟨h2, ?_⟩
  intro db2 m hm
  rw [h2] at hm
  injection hm with hm
  injection hm with hm1 hm2
  subst hm1; subst hm2
  exact ⟨rfl, rfl⟩

/-- C1 witness: the §8 tree scanned into the fresh catalog adds 3 items;
re-scanning the unchanged tree adds 0 and leaves the catalog equal. -/
theorem scan_idempotent_witness :
    scanDirectory "root" demoTree initialDB = .ok (demoDB, 3) ∧
    scanDirectory "root" demoTree demoDB = .ok (demoDB, 0) :=
  ⟨by decide,
    (scan_idempotent "root" demoTree initialDB demoDB 3 (by decide)).1⟩

/-- C2 counterexample: the claim says a file that vanishes between
enumeration and stat (`badFile`) is skipped and a tree with one such
file next to one classifiable file yields `addedCount == 1`.  In the
code the walk callback returns the per-file error (line 155), so the
scan aborts with an error instead. -/
theorem transient_error_aborts_cex :
    scanDirectory "root"
      (.dir "root" [.file "a.mp4" 10, .badFile "ghost"]) initialDB =
    .error "lstat root/ghost: no such file or directory" := by decide

/-- C2 amended: a per-file filesystem error reported by the walk — a
file that vanished between enumeration and size lookup included — is
not skipped: whenever the tree contains any node whose stat or listing
fails, the whole scan aborts and the error is surfaced to the caller.
(Rows inserted before the error are retained, per `walkEntry_delta`.) -/
theorem transient_error_aborts (rootPath : String) (root : FSEntry)
    (db : DBState) (hb : hasBad root = true) :
    ∃ msg, scanDirectory rootPath root db = .error msg := by
  have hok := walkEntry_exOk rootPath root db 0
  rw [hb] at hok
  unfold scanDirectory
  cases hw : walkEntry rootPath root db 0 with
  | error msg => exact ⟨msg, rfl⟩
  | ok r => rw [hw] at hok; exact absurd hok (by simp [exOk])

/-- C2 amended witness: a concrete tree with one vanished file and one
classifiable file makes the scan abort. -/
theorem transient_error_aborts_witness :
    ∃ msg, scanDirectory "root"
      (.dir "root" [.file "a.mp4" 10, .badFile "ghost"]) initialDB =
      .error msg :=
  transient_error_aborts "root"
    (.dir "root" [.file "a.mp4" 10, .badFile "ghost"]) initialDB (by decide)

/-- C4: the store enforces path uniqueness as a backstop.  For any path
not yet catalogued, a first direct insert succeeds and a second direct
insert of a record with the identical path — whatever its other fields —
fails with a constraint violation. -/
theorem store_unique_backstop (db : DBState) (p f1 f2 : String)
    (s1 s2 : Int) (t1 t2 : String) (hfresh : dbExists db p = false) :
    ∃ db1, dbInsert db p f1 s1 t1 = .ok db1 ∧
      dbInsert db1 p f2 s2 t2 = .error .constraintViolation := by
  refine ⟨_, dbInsert_ok_of_fresh db p f1 s1 t1 hfresh, ?_⟩
  apply dbInsert_error_of_exists
  simp [dbExists, newRow]

/-- C4 witness: two inserts of the same path into the fresh store. -/
theorem store_unique_backstop_witness :
    ∃ db1, dbInsert initialDB "/m/a.mp4" "a.mp4" 10 "video" = .ok db1 ∧
      dbInsert db1 "/m/a.mp4" "a.mp4" 10 "video" =
        .error .constraintViolation :=
  store_unique_backstop initialDB "/m/a.mp4" "a.mp4" "a.mp4" 10 10
    "video" "video" (by decide)

/-- C5: a root path that does not exist (its stat fails) or is not
accessible (its listing fails) makes the scan return an error to the
caller, never a zero-count success. -/
theorem scan_bad_root_errors (rootPath nm : String) (db : DBState) :
    scanDirectory rootPath (.badFile nm) db =
      .error ("lstat " ++ rootPath ++ ": no such file or directory") ∧
    scanDirectory rootPath (.badDir nm) db =
      .error ("open " ++ rootPath ++ ": permission denied") :=
  ⟨rfl, rfl⟩

/-- C3: classification is a pure function of the lowercased extension:
it yields `video` exactly for the seven video extensions and `image`
exactly for the five image extensions (hence `FILE.MP4`, `file.Mp4`,
`file.mp4` all classify as `video`), and a file whose extension is not
in the table is never inserted — processing it leaves the catalog
untouched. -/
theorem classify_table (path : String) :
    (classify path = some "video" ↔
      strToLower (filePathExt path) ∈ videoExts) ∧
    (classify path = some "image" ↔
      strToLower (filePathExt path) ∈ imageExts) ∧
    classify "FILE.MP4" = some "video" ∧
    classify "file.Mp4" = some "video" ∧
    classify "file.mp4" = some "video" ∧
    (classify path = none →
      ∀ db c nm s, processFile db c path nm s = (db, c)) := by
  refine ⟨lookupExt_video_iff _, lookupExt_image_iff _,
    by decide, by decide, by decide, ?_⟩
  intro h db c nm s
  exact processF_of_none db c path nm s h

/-- C3 witness: a `.txt` file classifies as nothing and its processing
inserts nothing. -/
theorem classify_table_witness :
    classify "c.txt" = none ∧
    processFile initialDB 0 "c.txt" "c.txt" 5 = (initialDB, 0) :=
  ⟨by decide,
    (classify_table "c.txt").2.2.2.2.2 (by decide) initialDB 0 "c.txt" 5⟩

/-- C6: over any successful walk, `addedCount` grows by exactly the
number of rows appended to the catalog — one per successful insert,
none on a skip or failed insert — and processing a regular file never
aborts the walk (the callback always returns nil for file nodes, also
when the insert fails). -/
theorem addedCount_tracks_inserts (path : String) (e : FSEntry)
    (db : DBState) (c : Nat) (db' : DBState) (c' : Nat)
    (h : walkEntry path e db c = .ok (db', c')) :
    (∃ tail, db'.items = db.items ++ tail ∧ c' = c + tail.length) ∧
    ∀ (p2 nm : String) (s : Int) (db2 : DBState) (c2 : Nat),
      exOk (walkEntry p2 (.file nm s) db2 c2) = true := by
  constructor
  · obtain ⟨tail, h1, h2, -⟩ := walkEntry_delta path e db c db' c' h
    exact ⟨tail, h1, h2⟩
  · intro p2 nm s db2 c2
    rw [walkEntry]
    rfl

/-- C6 witness: in the §8 scan the count 3 equals the number of rows
appended to the initially empty catalog. -/
theorem addedCount_tracks_inserts_witness :
    ∃ tail, demoDB.items = initialDB.items ++ tail ∧ 3 = 0 + tail.length :=
  (addedCount_tracks_inserts "root" demoTree initialDB 0 demoDB 3
    (by decide)).1

/-- C7: in every reachable catalog state, `countByKind().total` equals
`video + image` and equals the number of records of an unfiltered
`listAll()`. -/
theorem countByKind_consistent (db : DBState) (h : Reachable db) :
    (getStatsOfDB db).total =
      (getStatsOfDB db).videos + (getStatsOfDB db).images ∧
    (getStatsOfDB db).total = (getMediaItems db "").length := by
  have hwf := reachable_WF db h
  constructor
  · show db.items.length = countOfType db "video" + countOfType db "image"
    exact length_filter_kinds db.items hwf
  · show db.items.length = (getMediaItems db "").length
    rw [getMediaItems, if_pos rfl]
    exact ((List.perm_insertionSort createdDesc db.items).length_eq).symm

/-- C7 witness: the state after the §8 scan is reachable and satisfies
both count identities. -/
theorem countByKind_consistent_witness :
    (getStatsOfDB demoDB).total =
      (getStatsOfDB demoDB).videos + (getStatsOfDB demoDB).images ∧
    (getStatsOfDB demoDB).total = (getMediaItems demoDB "").length :=
  countByKind_consistent demoDB
    (Reachable.scanOk initialDB "root" demoTree demoDB 3 Reachable.init
      (by decide))

/-- C8: an unfiltered `listAll` returns every stored record, newest
first by `createdAt`; a kind-filtered `listAll` returns exactly the
stored records of that kind in the same order; and on the §8 scenario
catalog, `listAll("video")` is exactly the `a.mp4` record. -/
theorem listAll_spec (db : DBState) (t : String) :
    List.Sorted createdDesc (getMediaItems db "") ∧
    (∀ x, x ∈ getMediaItems db "" ↔ x ∈ db.items) ∧
    List.Sorted createdDesc (getMediaItems db t) ∧
    (t ≠ "" → ∀ x, x ∈ getMediaItems db t ↔ x ∈ db.items ∧ x.type = t) ∧
    scanDirectory "root" demoTree initialDB = .ok (demoDB, 3) ∧
    getMediaItems demoDB "video" =
      [{ id := 1, path := "root/a.mp4", filename := "a.mp4", size := 10,
         type := "video", createdAt := 0 }] := by
  refine ⟨?_, ?_, ?_, ?_, by decide, by decide⟩
  · rw [getMediaItems, if_pos rfl]
    exact List.sorted_insertionSort createdDesc db.items
  · intro x
    rw [getMediaItems, if_pos rfl]
    exact (List.perm_insertionSort createdDesc db.items).mem_iff
  · rw [getMediaItems]
    split
    · exact List.sorted_insertionSort createdDesc db.items
    · exact List.sorted_insertionSort createdDesc _
  · intro ht x
    rw [getMediaItems, if_neg ht]
    rw [(List.perm_insertionSort createdDesc _).mem_iff]
    simp [List.mem_filter]

/-- C8 witness: the `a.mp4` record is in `listAll("video")` of the §8
catalog because it is stored with kind `video`. -/
theorem listAll_spec_witness :
    ({ id := 1, path := "root/a.mp4", filename := "a.mp4", size := 10,
       type := "video", createdAt := 0 } : MediaItem) ∈
        getMediaItems demoDB "video" ↔
      ({ id := 1, path := "root/a.mp4", filename := "a.mp4", size := 10,
         type := "video", createdAt := 0 } : MediaItem) ∈ demoDB.items ∧
      ({ id := 1, path := "root/a.mp4", filename := "a.mp4", size := 10,
         type := "video", createdAt := 0 } : MediaItem).type = "video" :=
  (listAll_spec demoDB "video").2.2.2.1 (by decide) _

/-- C9: the catalog is append-only.  A successful scan only appends to
the stored rows (so every pre-existing record keeps its id, path,
filename, size, kind and createdAt at the same position), and the only
mutator, `insert`, appends exactly one row; the read operations take no
state and mutate nothing. -/
theorem catalog_append_only (rootPath : String) (root : FSEntry)
    (db db' : DBState) (c : Nat)
    (h : scanDirectory rootPath root db = .ok (db', c)) :
    (∃ tail, db'.items = db.items ++ tail) ∧
    ∀ (db2 db3 : DBState) (p f : String) (s : Int) (t : String),
      dbInsert db2 p f s t = .ok db3 →
        db3.items = db2.items ++ [newRow db2 p f s t] := by
  constructor
  · unfold scanDirectory at h
    obtain ⟨tail, h1, -, -⟩ := walkEntry_delta rootPath root db 0 db' c h
    exact ⟨tail, h1⟩
  · intro db2 db3 p f s t hins
    exact (dbInsert_ok_inv db2 db3 p f s t hins).2

/-- C9 witness: the §8 scan only appends to the empty catalog. -/
theorem catalog_append_only_witness :
    ∃ tail, demoDB.items = initialDB.items ++ tail :=
  (catalog_append_only "root" demoTree initialDB demoDB 3 (by decide)).1

/-- C10: `getStats` is a total function into `Stats` — it never
surfaces an error.  A failed count query only leaves the corresponding
zero-initialised counter at 0 in an otherwise successful response, and
when every query fails the response equals the one for the empty
catalog: a storage failure is indistinguishable from an empty
catalog. -/
theorem getStats_failure_reads_zero (n m : Nat) (eT eV eI : String) :
    getStats (.error eT) (.ok n) (.ok m) =
      { total := 0, videos := n, images := m } ∧
    getStats (.ok n) (.error eV) (.ok m) =
      { total := n, videos := 0, images := m } ∧
    getStats (.ok n) (.ok m) (.error eI) =
      { total := n, videos := m, images := 0 } ∧
    getStats (.error eT) (.error eV) (.error eI) = getStatsOfDB initialDB :=
  ⟨rfl, rfl, rfl, rfl⟩
